import Mathlib

/-!
Verification development for the B3 historical-quotes repository
(`b3_analyzer`): a shallow embedding in Lean 4 of the fixed-width record
decoder and batch writer (`raw_data_processor.py`), the security-master
builder (`dictionary_builder.py`), and the query engine (`analyzer.py`),
together with theorems settling the specification claims.

Text is modelled as `List Char` (`Str`), since the embedding only needs
code-point-level operations (Python's `str` operations on these ASCII
fields act per code point).  Missing values (pandas `NaN`/`NaT`/`<NA>`)
are modelled as `Option.none`.  Prices are carried, as in the source,
as IEEE-754 binary64 values: a double is represented exactly as a
dyadic pair `(m, e)` of value `m * 2 ^ e`, and the rounding of an exact
rational to the nearest double (ties to even) is computed over integers,
so the float64 division by 100 and multiplication by 100 of the source
are modelled bit-exactly (normal range; no subnormals or overflow arise
for these fields).  Numeric text is parsed with the decimal/scientific
grammar `pandas.to_numeric` accepts on these fields (special values
such as `inf`/`nan` do not occur in them).  Trade dates are modelled as
`YYYYMMDD` numerals (`Nat`), whose numeric order agrees with
chronological order, coerced to missing outside the pandas `Timestamp`
range as `to_datetime(errors='coerce')` does.
-/

namespace B3

set_option maxRecDepth 16000

abbrev Str := List Char

/-- Whitespace for Python `str.strip` / blank-field detection (the fields
here only ever contain spaces, tabs, CR and LF). -/
def isWS (c : Char) : Bool :=
  c.toNat = 32 || c.toNat = 9 || c.toNat = 10 || c.toNat = 13

/-- Python `str.strip()` (and the trimming `pandas.read_fwf` applies). -/
def trimStr (s : Str) : Str :=
  ((s.dropWhile isWS).reverse.dropWhile isWS).reverse

def isDigitC (c : Char) : Bool := 48 ≤ c.toNat && c.toNat ≤ 57

def isUpperAZ (c : Char) : Bool := 65 ≤ c.toNat && c.toNat ≤ 90

/-- ASCII uppercase of one character (Python `str.upper` on these fields). -/
def charUp (c : Char) : Char :=
  if 97 ≤ c.toNat ∧ c.toNat ≤ 122 then Char.ofNat (c.toNat - 32) else c

/-- ASCII lowercase of one character (Python `str.lower`). -/
def charDown (c : Char) : Char :=
  if 65 ≤ c.toNat ∧ c.toNat ≤ 90 then Char.ofNat (c.toNat + 32) else c

def upperStr (s : Str) : Str := s.map charUp

def lowerStr (s : Str) : Str := s.map charDown

/-- Digit run to a number; `none` on empty or non-digit input. -/
def natOfDigits (s : Str) : Option Nat :=
  match s with
  | [] => none
  | l =>
    if l.all isDigitC then
      some (l.foldl (fun acc c => acc * 10 + (c.toNat - 48)) 0)
    else none

/-- Integer literal parse: optional sign then digits.  Models Python
`int(...)` (which, unlike `to_numeric`, rejects fractions and
exponents); used by the query engine's code translation. -/
def intOfStr (s : Str) : Option Int :=
  match s with
  | [] => none
  | c :: rest =>
    if c = '-' then (natOfDigits rest).map (fun n => -(n : Int))
    else if c = '+' then (natOfDigits rest).map (fun n => (n : Int))
    else (natOfDigits s).map (fun n => (n : Int))

/-! ### IEEE-754 binary64 values and Python numeric text

A double is the dyadic `(m, e)` with value `m * 2 ^ e`.  `roundF64Rat`
rounds the exact rational `(num / den) * 2 ^ ofs` to the nearest double
(53-bit significand, ties to even), computed purely over integers so the
kernel can evaluate it.  The normal range suffices here: the decoded
fields never reach the subnormal or overflow regions. -/

abbrev F64 := Int × Int

def bitLenAux : Nat → Nat → Nat
  | 0, _ => 0
  | f + 1, n => if n ≤ 1 then 0 else bitLenAux f (n / 2) + 1

/-- Floor of the base-2 logarithm (0 at 0 and 1); the fuel of 128 covers
every magnitude these fields produce. -/
def floorLog2 (n : Nat) : Nat := bitLenAux 128 n

/-- Does `2 ^ k ≤ a / b` hold (for `a, b ≥ 1`)? -/
def pow2LeRat (k : Int) (a b : Nat) : Bool :=
  if 0 ≤ k then b * 2 ^ k.toNat ≤ a else b ≤ a * 2 ^ (-k).toNat

/-- The unique `k` with `2 ^ k ≤ a / b < 2 ^ (k + 1)` (for `a, b ≥ 1`). -/
def ratLog2 (a b : Nat) : Int :=
  let k0 : Int := (floorLog2 a : Int) - (floorLog2 b : Int)
  if pow2LeRat k0 a b then k0 else k0 - 1

/-- Round `A / B` to the nearest integer, ties to even. -/
def roundMantissa (A B : Nat) : Nat :=
  let q := A / B
  let r := A % B
  if 2 * r < B then q
  else if B < 2 * r then q + 1
  else if q % 2 = 0 then q else q + 1

/-- Round the positive rational `(a / b) * 2 ^ ofs` to 53 significant
bits, returning the significand and binary exponent. -/
def roundPosRat (a b : Nat) (ofs : Int) : Nat × Int :=
  let k := ratLog2 a b
  let sh := 52 - k
  if 0 ≤ sh then (roundMantissa (a * 2 ^ sh.toNat) b, ofs + k - 52)
  else (roundMantissa a (b * 2 ^ (-sh).toNat), ofs + k - 52)

/-- Round the exact rational `(num / den) * 2 ^ ofs` to the nearest
IEEE-754 binary64 value. -/
def roundF64Rat (num : Int) (den : Nat) (ofs : Int) : F64 :=
  if num = 0 then (0, 0)
  else
    let r := roundPosRat num.natAbs den ofs
    (if num < 0 then -(r.1 : Int) else (r.1 : Int), r.2)

/-- A parsed decimal numeral of exact value `m * 10 ^ p`. -/
structure DecNum where
  m : Int
  p : Int
deriving DecidableEq

def digitsVal (s : Str) : Nat :=
  s.foldl (fun acc c => acc * 10 + (c.toNat - 48)) 0

/-- The integer-and-fraction part of a numeral: digits, an optional
point, more digits; at least one digit overall. -/
def parseMantissa (s : Str) : Option DecNum :=
  let intPart := s.takeWhile isDigitC
  match s.dropWhile isDigitC with
  | [] => if intPart = [] then none else some ⟨(digitsVal intPart : Int), 0⟩
  | '.' :: frac =>
    if frac.all isDigitC && !(intPart = [] && frac = []) then
      some ⟨(digitsVal (intPart ++ frac) : Int), -(frac.length : Int)⟩
    else none
  | _ => none

/-- An optionally signed digit run (the exponent of a numeral). -/
def parseSignedInt (s : Str) : Option Int :=
  match s with
  | '-' :: rest =>
    if rest ≠ [] && rest.all isDigitC then some (-(digitsVal rest : Int)) else none
  | '+' :: rest =>
    if rest ≠ [] && rest.all isDigitC then some ((digitsVal rest : Int)) else none
  | _ => if s ≠ [] && s.all isDigitC then some ((digitsVal s : Int)) else none

/-- Split a numeral at its first `e`/`E`, when present. -/
def splitOnE : Str → Str × Option Str
  | [] => ([], none)
  | c :: cs =>
    if c = 'e' || c = 'E' then ([], some cs)
    else
      match splitOnE cs with
      | (m, ex) => (c :: m, ex)

def pyNumParseUnsigned (s : Str) : Option DecNum :=
  match splitOnE s with
  | (mant, expPart) =>
    match parseMantissa mant with
    | none => none
    | some d =>
      match expPart with
      | none => some d
      | some es =>
        match parseSignedInt es with
        | none => none
        | some ex => some ⟨d.m, d.p + ex⟩

/-- Model of `pandas.to_numeric(..., errors='coerce')` on one stripped
field: an optionally signed decimal numeral with optional fraction and
exponent, kept as its exact decimal value; anything else is missing.
(`inf`/`nan` spellings never occur in these fields and are not
modelled.) -/
def pyNumParse (s : Str) : Option DecNum :=
  match s with
  | '-' :: rest => (pyNumParseUnsigned rest).map (fun d => ⟨-d.m, d.p⟩)
  | '+' :: rest => pyNumParseUnsigned rest
  | _ => pyNumParseUnsigned s

/-- Is the decimal value an integer (so `astype('Int64')` accepts it)? -/
def isIntegral (d : DecNum) : Bool :=
  if 0 ≤ d.p then true else d.m % ((10 : Int) ^ (-d.p).toNat) == 0

def decToInt (d : DecNum) : Int :=
  if 0 ≤ d.p then d.m * 10 ^ d.p.toNat else d.m / 10 ^ (-d.p).toNat

/-- The binary64 value of a parsed decimal numeral (the conversion the
numeric column undergoes before any float arithmetic). -/
def decValF64 (d : DecNum) : F64 :=
  if 0 ≤ d.p then roundF64Rat (d.m * 10 ^ d.p.toNat) 1 0
  else roundF64Rat d.m (10 ^ (-d.p).toNat) 0

/-- Float64 division by 100 (the `/ 100` of the decode). -/
def f64Div100 (v : F64) : F64 := roundF64Rat v.1 100 v.2

/-- Float64 multiplication by 100 (the re-encode). -/
def f64Mul100 (v : F64) : F64 := roundF64Rat (v.1 * 100) 1 v.2

/-- Does the double equal the integer `n` exactly? -/
def f64EqInt (v : F64) (n : Int) : Bool :=
  if 0 ≤ v.2 then v.1 * 2 ^ v.2.toNat == n else v.1 == n * 2 ^ (-v.2).toNat

/-- Lexicographic code-point order on text, as Python `sorted` uses. -/
def strLeb : Str → Str → Bool
  | [], _ => true
  | _ :: _, [] => false
  | a :: as, b :: bs =>
    if a.toNat < b.toNat then true
    else if a.toNat = b.toNat then strLeb as bs
    else false

/-- Does `s` begin with `pat` (per code point)? -/
def beginsWith (pat s : Str) : Bool :=
  match pat, s with
  | [], _ => true
  | _ :: _, [] => false
  | p :: ps, c :: cs => p = c && beginsWith ps cs

/-- Is `pat` a contiguous substring of `s`?  Models `str.contains`
with a literal (non-regex) pattern. -/
def isSubstr (pat s : Str) : Bool :=
  match s with
  | [] => pat.isEmpty
  | _ :: cs => beginsWith pat s || isSubstr pat cs

/-- Does `s` end with `pat` (Python `str.endswith`)? -/
def endsWithStr (pat s : Str) : Bool := beginsWith pat.reverse s.reverse

/-- Split on one separator character, keeping empty pieces, as
`re.split` on a single-character alternation does. -/
def splitOnChar (sep : Char) : Str → List Str
  | [] => [[]]
  | c :: cs =>
    let r := splitOnChar sep cs
    if c = sep then [] :: r
    else match r with
      | [] => [[c]]
      | h :: t => (c :: h) :: t

def uniqueFirstAux {α : Type} [DecidableEq α] : List α → List α → List α
  | [], _ => []
  | a :: l, seen =>
    if a ∈ seen then uniqueFirstAux l seen else a :: uniqueFirstAux l (a :: seen)

/-- First-occurrence deduplication, as `pandas.Series.unique` keeps the
first occurrence of each value. -/
def uniqueFirst {α : Type} [DecidableEq α] (l : List α) : List α := uniqueFirstAux l []

/-- The `" | ".join` of a trail, the single-delimiter join. -/
def joinPipe (l : List Str) : Str :=
  match l with
  | [] => []
  | [s] => s
  | s :: (t :: ts) => s ++ (' ' :: '|' :: ' ' :: []) ++ joinPipe (t :: ts)

/-! ## Record decoder (`raw_data_processor.py`, `process_text_to_parquet`)

`COTAHIST_LAYOUT` gives 1-based inclusive `(start, end)` column pairs;
`COLSPECS = [(start - 1, end)]` converts them to zero-based half-open
slices for `read_fwf`.  `extractSlice line a b` is the slice of the line
for layout entry `(a, b)`. -/

def extractSlice (line : Str) (a b : Nat) : Str := (line.drop (a - 1)).take (b - (a - 1))

/-- One raw text field: slice, trim, and blank-to-missing (`read_fwf`
yields `NaN` for an all-blank field; the `.str.strip()` pass in the
source is a no-op after that). -/
def rawField (line : Str) (a b : Nat) : Option Str :=
  let t := trimStr (extractSlice line a b)
  if t = [] then none else some t

def daysInMonth (y m : Nat) : Nat :=
  if m = 2 then (if (y % 4 = 0 && y % 100 != 0) || y % 400 = 0 then 29 else 28)
  else if [1, 3, 5, 7, 8, 10, 12].contains m then 31
  else if [4, 6, 9, 11].contains m then 30
  else 0

/-- Model of `pd.to_datetime(, format='%Y%m%d', errors='coerce')`: exactly eight
digits forming a valid calendar date inside the pandas `Timestamp`
range — midnight of the date must lie in [`Timestamp.min`,
`Timestamp.max`], i.e. between 1677-09-22 and 2262-04-11 — else
missing.  The date is kept as its `YYYYMMDD` numeral, whose `Nat` order
is chronological order. -/
def parseDate8 (s : Str) : Option Nat :=
  if s.length = 8 then
    match natOfDigits s with
    | some n =>
      let m := n / 100 % 100
      let d := n % 100
      if 1 ≤ m && m ≤ 12 && 1 ≤ d && d ≤ daysInMonth (n / 10000) m
          && 16770922 ≤ n && n ≤ 22620411 then some n else none
    | none => none
  else none

def parseDateField (line : Str) (a b : Nat) : Option Nat :=
  (rawField line a b).bind parseDate8

/-- Price/volume decode: `pd.to_numeric(, errors='coerce') / 100` — the
parsed numeral is converted to binary64 and divided by 100 in binary64
arithmetic, as the source's float64 column computes. -/
def parsePriceField (line : Str) (a b : Nat) : Option F64 :=
  (rawField line a b).bind (fun s => (pyNumParse s).map (fun d => f64Div100 (decValF64 d)))

/-- The specification's idealized exact scaling of a price field: the
scaled integer divided by 100 in exact rational arithmetic.  This is a
spec-side reading, named for the amended round-trip claim; the
program's decode is the binary64 `parsePriceField`. -/
def decodeScaledExact (n : Int) : ℚ := (n : ℚ) / 100

/-- The per-element value of an integer-coded decode
(`pd.to_numeric(, errors='coerce').astype('Int64')`): the parsed value
when it is an integer, missing when the text is not numeric.  A numeric
but non-integral value makes `astype('Int64')` raise — a batch-level
event modelled by `decodeBatchChecked`, not a per-element value. -/
def parseIntField (line : Str) (a b : Nat) : Option Int :=
  (rawField line a b).bind (fun s =>
    (pyNumParse s).bind (fun d => if isIntegral d then some (decToInt d) else none))

def parseStrField (line : Str) (a b : Nat) : Option Str := rawField line a b

/-- One row of the columnar store, fields and layout as in
`COTAHIST_LAYOUT`; every field is nullable (missing-on-failure). -/
structure QuoteRecord where
  TIPREG : Option Int := none
  DATA_PREGAO : Option Nat := none
  CODBDI : Option Int := none
  CODNEG : Option Str := none
  TPMERC : Option Int := none
  NOMRES : Option Str := none
  ESPECI : Option Str := none
  PRAZOT : Option Int := none
  MODREF : Option Str := none
  PREABE : Option F64 := none
  PREMAX : Option F64 := none
  PREMIN : Option F64 := none
  PREMED : Option F64 := none
  PREULT : Option F64 := none
  PREOFC : Option F64 := none
  PREOFV : Option F64 := none
  TOTNEG : Option Int := none
  QUATOT : Option Int := none
  VOLTOT : Option F64 := none
  PREEXE : Option F64 := none
  INDOPC : Option Int := none
  DATVEN : Option Nat := none
  FATCOT : Option Int := none
  PTOEXE : Option Int := none
  CODISI : Option Str := none
  DISMES : Option Int := none
deriving DecidableEq

/-- Decode one fixed-width line into a typed record.  Total: a malformed
line degrades to missing fields, it is never dropped and never raises.
Column pairs are the 1-based inclusive ones of `COTAHIST_LAYOUT`;
`DATE_COLS`, `PRICE_COLS` and `INT_COLS` select each field's parser. -/
def decodeLine (line : Str) : QuoteRecord where
  TIPREG := parseIntField line 1 2
  DATA_PREGAO := parseDateField line 3 10
  CODBDI := parseIntField line 11 12
  CODNEG := parseStrField line 13 24
  TPMERC := parseIntField line 25 27
  NOMRES := parseStrField line 28 39
  ESPECI := parseStrField line 40 49
  PRAZOT := parseIntField line 50 52
  MODREF := parseStrField line 53 56
  PREABE := parsePriceField line 57 69
  PREMAX := parsePriceField line 70 82
  PREMIN := parsePriceField line 83 95
  PREMED := parsePriceField line 96 108
  PREULT := parsePriceField line 109 121
  PREOFC := parsePriceField line 122 134
  PREOFV := parsePriceField line 135 147
  TOTNEG := parseIntField line 148 152
  QUATOT := parseIntField line 153 170
  VOLTOT := parsePriceField line 171 188
  PREEXE := parsePriceField line 189 201
  INDOPC := parseIntField line 202 202
  DATVEN := parseDateField line 203 210
  FATCOT := parseIntField line 211 217
  PTOEXE := parseIntField line 218 230
  CODISI := parseStrField line 231 242
  DISMES := parseIntField line 243 245

/-- The slice `lines[1:-1]`: strip the one header and one trailer line. -/
def contentLines (lines : List Str) : List Str := (lines.drop 1).dropLast

/-- Is one integer-coded field safe for `astype('Int64')`: blank,
non-numeric (both become missing) or an integral numeral? -/
def intFieldOk (line : Str) (a b : Nat) : Bool :=
  match rawField line a b with
  | none => true
  | some s =>
    match pyNumParse s with
    | none => true
    | some d => isIntegral d

/-- All of `INT_COLS`, in the source's order. -/
def lineIntFieldsOk (line : Str) : Bool :=
  intFieldOk line 1 2 && intFieldOk line 11 12 && intFieldOk line 25 27
    && intFieldOk line 148 152 && intFieldOk line 153 170 && intFieldOk line 211 217
    && intFieldOk line 202 202 && intFieldOk line 243 245 && intFieldOk line 50 52
    && intFieldOk line 218 230

/-- The batch type-conversion stage.  Every line decodes to a record
(missing-on-failure fields, no line dropped) — unless some line's
integer-coded field holds a numeric but non-integral value, in which
case `.astype('Int64')` raises for that whole batch; `none` models that
raise (caught by the per-file `except`, which skips the rest of the
file). -/
def decodeBatchChecked (lines : List Str) : Option (List QuoteRecord) :=
  if lines.all lineIntFieldsOk then some (lines.map decodeLine) else none

/-! ## Batch writer (`process_text_to_parquet`, batching and schema)

`pa.Table.from_pandas` infers one Arrow schema per batch.  After the
explicit dtype conversions, the date, price and integer columns have
fixed dtypes; only the five remaining object (text) columns can drift:
an all-missing object column is inferred as the Arrow `null` type
instead of `string`.  The writer captures the very first batch's schema
as canonical and `cast`s every later batch to it; a cast of a `string`
column (which has a non-null value) to `null` is invalid and raises,
which the per-file `except` turns into skipping the rest of that file. -/

inductive PType
  | tnull
  | tstr
  | tint
  | tfloat
  | tdate
deriving DecidableEq

abbrev Schema := List (Str × PType)

/-- Arrow type inferred for an object (text) column: `null` when every
value is missing, `string` otherwise. -/
def strColType (vals : List (Option Str)) : PType :=
  if vals.all (fun v => v.isNone) then .tnull else .tstr

/-- The schema `pa.Table.from_pandas` infers for one batch. -/
def inferSchema (batch : List QuoteRecord) : Schema :=
  [("TIPREG".data, .tint), ("DATA_PREGAO".data, .tdate), ("CODBDI".data, .tint),
   ("CODNEG".data, strColType (batch.map (fun r => r.CODNEG))), ("TPMERC".data, .tint),
   ("NOMRES".data, strColType (batch.map (fun r => r.NOMRES))),
   ("ESPECI".data, strColType (batch.map (fun r => r.ESPECI))), ("PRAZOT".data, .tint),
   ("MODREF".data, strColType (batch.map (fun r => r.MODREF))),
   ("PREABE".data, .tfloat), ("PREMAX".data, .tfloat), ("PREMIN".data, .tfloat),
   ("PREMED".data, .tfloat), ("PREULT".data, .tfloat), ("PREOFC".data, .tfloat),
   ("PREOFV".data, .tfloat), ("TOTNEG".data, .tint), ("QUATOT".data, .tint),
   ("VOLTOT".data, .tfloat), ("PREEXE".data, .tfloat), ("INDOPC".data, .tint),
   ("DATVEN".data, .tdate), ("FATCOT".data, .tint), ("PTOEXE".data, .tint),
   ("CODISI".data, strColType (batch.map (fun r => r.CODISI))), ("DISMES".data, .tint)]

/-- Can a column of inferred type `f` be cast to target type `t`?  A
`null` column (all values missing) casts to anything; otherwise the
types must agree (an inferred `string` column holds a non-null value, so
casting it to `null` raises). -/
def castOK (f t : PType) : Bool := f == t || f == .tnull

/-- Model of `table.cast(final_schema)`: succeeds (returning a table carrying the
target schema) iff the schemas align column by column; `none` models the
raised cast error. -/
def castBatch (target : Schema) (batch : List QuoteRecord) : Option (Schema × List QuoteRecord) :=
  if (inferSchema batch).length = target.length
      && ((inferSchema batch).zip target).all (fun p => p.1.1 == p.2.1 && castOK p.1.2 p.2.2)
  then some (target, batch) else none

/-- Writer state across one build: the canonical schema captured at the
first written batch (`final_schema`), and the batches appended so far,
each carrying the schema it was written under. -/
structure WriterState where
  schema : Option Schema
  written : List (Schema × List QuoteRecord)
deriving DecidableEq

/-- Write one batch: an empty batch is skipped (`if df_batch.empty:
continue`); the first written batch fixes the canonical schema; every
batch (the first included) is cast to the canonical schema before the
append.  `none` models the cast raising. -/
def writeBatch (st : WriterState) (batch : List QuoteRecord) : Option WriterState :=
  if batch.isEmpty then some st
  else
    match castBatch (st.schema.getD (inferSchema batch)) batch with
    | some tb => some ⟨some (st.schema.getD (inferSchema batch)), st.written ++ [tb]⟩
    | none => none

def chunkListAux {α : Type} (n : Nat) : List α → Nat → List (List α)
  | [], _ => []
  | x :: xs, 0 => [x :: xs]
  | x :: xs, fuel + 1 => (x :: xs.take (n - 1)) :: chunkListAux n (xs.drop (n - 1)) fuel

/-- Split content lines into batches of `BATCH_SIZE` (the `range(0, len,
BATCH_SIZE)` loop); the fuel, primed with the list length, only bounds
the structural recursion and is never exhausted. -/
def chunkList {α : Type} (n : Nat) (l : List α) : List (List α) := chunkListAux n l l.length

/-- Process one input file's batches in order.  A failed integer cast
during batch conversion or a failed schema cast raises inside the
per-file `try`; the `except` reports and skips the rest of that file,
keeping what was already written. -/
def processFile (batchSize : Nat) (st : WriterState) (lines : List Str) : WriterState :=
  go st (chunkList batchSize (contentLines lines))
where
  go : WriterState → List (List Str) → WriterState
    | st, [] => st
    | st, b :: bs =>
      match decodeBatchChecked b with
      | none => st
      | some batch =>
        match writeBatch st batch with
        | some st' => go st' bs
        | none => st

/-- One whole build over the (sorted) input files, starting from a fresh
writer (`writer = None`, the old output removed). -/
def processBuild (batchSize : Nat) (files : List (List Str)) : WriterState :=
  files.foldl (processFile batchSize) ⟨none, []⟩

/-- The schema invariant the writer maintains: before any batch is
written there is no canonical schema and nothing written; afterwards
every written batch carries the canonical schema. -/
def WriterInv (st : WriterState) : Prop :=
  (∀ s, st.schema = some s → ∀ b ∈ st.written, b.1 = s)
  ∧ (st.schema = none → st.written = [])

/-! ## Security-master builder (`dictionary_builder.py`, `create_security_master`) -/

/-- One Security Master entry (one row of `dicionario_ativos`). -/
structure MasterEntry where
  CODISI : Option Str
  ULTIMO_TICKER : Option Str
  ULTIMO_NOME : Option Str
  ULTIMA_ESPECIFICACAO : Option Str
  TICKERS_HISTORICOS : Str
  NOMES_HISTORICOS : Str
deriving DecidableEq

/-- Relation `dateLeb x y`: date `x` is at most date `y`, missing dates at the
bottom.  Used to state maximality of the chosen trade date. -/
def dateLeb : Option Nat → Option Nat → Bool
  | none, _ => true
  | some _, none => false
  | some a, some b => a ≤ b

/-- Row order of `sort_values('DATA_PREGAO', ascending=False)`:
descending trade date, missing dates last (`na_position='last'`). -/
def descDateb : Option Nat → Option Nat → Bool
  | some a, some b => b ≤ a
  | some _, none => true
  | none, some _ => false
  | none, none => true

def DescDate (a b : QuoteRecord) : Prop := descDateb a.DATA_PREGAO b.DATA_PREGAO = true

instance : DecidableRel DescDate := fun a b => instDecidableEqBool _ _

instance : IsTotal QuoteRecord DescDate :=
  ⟨fun a b => by
    unfold DescDate
    generalize a.DATA_PREGAO = x
    generalize b.DATA_PREGAO = y
    cases x <;> cases y <;> simp [descDateb] <;> omega⟩

instance : IsTrans QuoteRecord DescDate :=
  ⟨fun a b c hab hbc => by
    unfold DescDate at *
    generalize a.DATA_PREGAO = x at hab ⊢
    generalize b.DATA_PREGAO = y at hab hbc
    generalize c.DATA_PREGAO = z at hbc ⊢
    cases x <;> cases y <;> cases z <;> simp [descDateb] at * <;> omega⟩

/-- Model of `drop_duplicates(subset=['CODISI'], keep='first')`: keep only the
first row seen for each key. -/
def dropDupCodisi : List QuoteRecord → List (Option Str) → List QuoteRecord
  | [], _ => []
  | r :: rs, seen =>
    if r.CODISI ∈ seen then dropDupCodisi rs seen
    else r :: dropDupCodisi rs (r.CODISI :: seen)

def SLe (a b : Str) : Prop := strLeb a b = true

instance : DecidableRel SLe := fun a b => instDecidableEqBool _ _

instance : IsTotal Str SLe :=
  ⟨by
    intro a b
    unfold SLe
    induction a generalizing b with
    | nil => exact .inl rfl
    | cons x xs ih =>
      cases b with
      | nil => exact .inr rfl
      | cons y ys =>
        rcases Nat.lt_trichotomy x.toNat y.toNat with h | h | h
        · left
          unfold strLeb
          simp [h]
        · rcases ih ys with h2 | h2
          · left
            unfold strLeb
            simp [h, h2]
          · right
            unfold strLeb
            simp [h, h2]
        · right
          unfold strLeb
          simp [h]⟩

instance : IsTrans Str SLe :=
  ⟨by
    intro a b c hab hbc
    unfold SLe at *
    induction a generalizing b c with
    | nil => rfl
    | cons x xs ih =>
      cases b with
      | nil => exact absurd hab (by unfold strLeb; simp)
      | cons y ys =>
        cases c with
        | nil => exact absurd hbc (by unfold strLeb; simp)
        | cons z zs =>
          unfold strLeb at hab hbc ⊢
          by_cases h1 : x.toNat < y.toNat
          · by_cases h2 : y.toNat < z.toNat
            · simp [Nat.lt_trans h1 h2]
            · by_cases h4 : y.toNat = z.toNat
              · rw [h4] at h1
                simp [h1]
              · rw [if_neg h2, if_neg h4] at hbc
                cases hbc
          · by_cases h3 : x.toNat = y.toNat
            · rw [if_neg h1, if_pos h3] at hab
              by_cases h2 : y.toNat < z.toNat
              · have h5 : x.toNat < z.toNat := h3 ▸ h2
                simp [h5]
              · by_cases h4 : y.toNat = z.toNat
                · rw [if_neg h2, if_pos h4] at hbc
                  have hxz : x.toNat = z.toNat := h3.trans h4
                  rw [if_neg (by omega), if_pos hxz]
                  exact ih ys zs hab hbc
                · rw [if_neg h2, if_neg h4] at hbc
                  cases hbc
            · rw [if_neg h1, if_neg h3] at hab
              cases hab⟩

/-- One historical trail, still as a list: the group's values for the
column (`groupby('CODISI')[col]`, row order preserved), first-occurrence
deduplicated (`x.unique()`), missing values dropped (`if pd.notna(item)`;
`str(item)` is the identity on these text values), sorted ascending. -/
def trailList (f : QuoteRecord → Option Str) (store : List QuoteRecord) (c : Option Str) :
    List Str :=
  let ativos := store.filter (fun r => r.CODISI.isSome)
  let group := ativos.filter (fun r => r.CODISI = c)
  List.insertionSort SLe ((uniqueFirst (group.map f)).filterMap id)

/-- Build one master entry from the latest row `r` for its identifier:
the renamed latest-snapshot columns plus the two joined trails (the
`merge ... on='CODISI', how='left'` attaches exactly the trail computed
for that identifier). -/
def mkEntry (store : List QuoteRecord) (r : QuoteRecord) : MasterEntry where
  CODISI := r.CODISI
  ULTIMO_TICKER := r.CODNEG
  ULTIMO_NOME := r.NOMRES
  ULTIMA_ESPECIFICACAO := r.ESPECI
  TICKERS_HISTORICOS := joinPipe (trailList (fun x => x.CODNEG) store r.CODISI)
  NOMES_HISTORICOS := joinPipe (trailList (fun x => x.NOMRES) store r.CODISI)

/-- Final `sort_values('ULTIMO_TICKER')`: ascending, missing last. -/
def ascTickb : Option Str → Option Str → Bool
  | some a, some b => strLeb a b
  | some _, none => true
  | none, some _ => false
  | none, none => true

def TickLe (a b : MasterEntry) : Prop := ascTickb a.ULTIMO_TICKER b.ULTIMO_TICKER = true

instance : DecidableRel TickLe := fun a b => instDecidableEqBool _ _

/-- Model of `create_security_master` on the completed store: drop rows with a
missing identifier, sort by trade date descending, keep the first row
per identifier, attach the trails, and sort by latest ticker. -/
def createSecurityMaster (store : List QuoteRecord) : List MasterEntry :=
  let ativos := store.filter (fun r => r.CODISI.isSome)
  let base := dropDupCodisi (List.insertionSort DescDate ativos) []
  List.insertionSort TickLe (base.map (mkEntry store))

/-! ## Query engine (`analyzer.py`, class `B3Data`)

The engine state is the loaded Security Master plus the two code
dictionaries (description → numeric code).  The Parquet scan
(`pd.read_parquet(path, columns=…, filters=…)`) is abstracted as a
function argument returning either the matching rows or a data-layer
failure; `HonorsFilters` states the storage layer's pushdown contract.
Keyword arguments are modelled with an outer `Option` for key presence
wherever the source distinguishes `k in params` from `params.get(k)`
(the seven "starter" criteria), and a plain `Option` elsewhere. -/

inductive CodeItem
  | code (n : Int)
  | descr (s : Str)
deriving DecidableEq

inductive FVal
  | date (d : Nat)
  | int (n : Int)
  | ints (l : List Int)
  | strs (l : List Str)
deriving DecidableEq

/-- One `(column, operator, value)` pushdown predicate tuple. -/
structure PFilter where
  col : Str
  op : Str
  val : FVal
deriving DecidableEq

inductive QError
  | invalidQuery
  | attrError
  | valueError
deriving DecidableEq

abbrev ScanFn := List PFilter → List Str → Except Unit (List QuoteRecord)

/-- Outcome of `get_quotes`: whether a store scan was attempted, the
pushdown predicates passed to it, and the returned rows. -/
structure QueryResult where
  scanned : Bool
  filtersUsed : List PFilter
  rows : List QuoteRecord
deriving DecidableEq

structure Params where
  tickers : Option (Option (List Str)) := none
  entity : Option (Option Str) := none
  asset_class : Option (Option Str) := none
  ticker_root : Option (Option Str) := none
  codisi : Option (Option (List Str)) := none
  codbdi : Option (Option (List CodeItem)) := none
  tpmerc : Option (Option (List CodeItem)) := none
  start_date : Option Nat := none
  end_date : Option Nat := none
  vencimento_min : Option Nat := none
  vencimento_max : Option Nat := none
  especificacao : Option (List Str) := none
  columns : Option (List Str) := none
deriving DecidableEq

/-- Word characters for the `\b...\b` ticker-trail match (ASCII
alphanumerics and underscore; non-ASCII code points are treated as word
characters, as Python's Unicode `\w` does for the letters occurring
here). -/
def isWordC (c : Char) : Bool :=
  isDigitC c || isUpperAZ c || (97 ≤ c.toNat && c.toNat ≤ 122) || c = '_' || 128 ≤ c.toNat

def tokensAux : Str → Str → List Str
  | [], cur => if cur = [] then [] else [cur.reverse]
  | c :: cs, cur =>
    if isWordC c then tokensAux cs (c :: cur)
    else if cur = [] then tokensAux cs [] else cur.reverse :: tokensAux cs []

/-- The maximal word-character runs of a string. -/
def tokensOf (s : Str) : List Str := tokensAux s []

/-- Model of `find_assets`: case-insensitive universal lookup — whole-token match
in the historical-ticker trail (`\bQ\b`, modelled for word-only queries),
substring match in the historical-name trail, exact match on the
identifier.  Union of the three masks; returns the matching rows. -/
def find_assets (master : List MasterEntry) (query : Str) : List MasterEntry :=
  let q := upperStr query
  master.filter (fun e =>
    (tokensOf e.TICKERS_HISTORICOS).contains q
    || isSubstr q e.NOMES_HISTORICOS
    || e.CODISI == some q)

/-- Model of `re.match("^[A-Z]{4}", t)`: the 4-letter ticker root, when the
ticker starts with four uppercase letters. -/
def root4 (t : Str) : Option Str :=
  let cs := t.take 4
  if cs.length = 4 && cs.all isUpperAZ then some cs else none

/-- Model of `re.match("^[A-Z]{4}[0-9]{1,2}$", t)`: a well-formed ticker. -/
def validTicker (t : Str) : Bool :=
  match t with
  | a :: b :: c :: d :: rest =>
    isUpperAZ a && isUpperAZ b && isUpperAZ c && isUpperAZ d &&
    (match rest with
     | [x] => isDigitC x
     | [x, y] => isDigitC x && isDigitC y
     | _ => false)
  | _ => false

/-- Model of `t.endswith(('3', '4', '5', '6', '11'))`: common/preferred/unit
share-class suffixes. -/
def equitySuffix (t : Str) : Bool :=
  endsWithStr "3".data t || endsWithStr "4".data t || endsWithStr "5".data t
    || endsWithStr "6".data t || endsWithStr "11".data t

inductive EntityStep
  | earlyEmpty
  | go (p : Params) (rootForOptions : Option Str)
deriving DecidableEq

/-- The exploratory layer at the top of `get_quotes`: for a truthy
`entity`, either resolve options by the first match's 4-letter ticker
root (deleting `entity` from the parameters), or expand the matched
entities' historical tickers into a `tickers` criterion; an entity with
no match returns an empty result at once (`earlyEmpty`).  `pat.str.split
(' | ')` is interpreted by pandas as the regular expression `" | "`,
i.e. a split on single spaces; the `^[A-Z]{4}[0-9]{1,2}$` filter then
discards the `|` separators. -/
def resolveEntity (master : List MasterEntry) (p : Params) : Except QError EntityStep :=
  match p.entity.join with
  | none => .ok (.go p none)
  | some ent =>
    if ent = [] then .ok (.go p none)
    else if p.asset_class.join == some "options".data then
      match find_assets master ent with
      | [] => .ok .earlyEmpty
      | e :: _ =>
        match e.ULTIMO_TICKER with
        | none => .error .attrError
        | some t =>
          match root4 t with
          | some root => .ok (.go { p with entity := none } (some root))
          | none => .error .attrError
    else if p.tickers.isNone then
      match find_assets master ent with
      | [] => .ok .earlyEmpty
      | es =>
        let allRaw := uniqueFirst (es.flatMap (fun e => splitOnChar ' ' e.TICKERS_HISTORICOS))
        let valid := allRaw.filter validTicker
        let chosen :=
          if p.asset_class.join == some "equity".data then valid.filter equitySuffix
          else valid
        .ok (.go { p with tickers := some (some chosen) } none)
    else .ok (.go p none)

/-- The starter-criterion validation: `any(k in params for k in
valid_starters)` — key presence only, a `None` value counts. -/
def starterPresent (p : Params) : Bool :=
  p.tickers.isSome || p.entity.isSome || p.codisi.isSome || p.codbdi.isSome
    || p.tpmerc.isSome || p.asset_class.isSome || p.ticker_root.isSome

def lookupCode (m : List (Str × Int)) (k : Str) : Option Int :=
  (m.find? (fun q => q.1 == k)).map (fun q => q.2)

/-- Model of `int(code_map.get(str(item).upper(), item))`: a description is
translated through the dictionary; a numeric code passes through (the
dictionaries' keys are non-numeric descriptions); an unknown description
that is not an integer literal raises `ValueError`. -/
def translateCode (m : List (Str × Int)) : CodeItem → Except QError Int
  | .code n => .ok n
  | .descr s =>
    match lookupCode m (upperStr s) with
    | some c => .ok c
    | none =>
      match intOfStr (trimStr s) with
      | some n => .ok n
      | none => .error .valueError

/-- The asset-class convenience expansion at the top of
`_build_parquet_filters` (a falsy or unrecognized class adds nothing;
`bdr` is deliberately handled in the post-filter stage only). -/
def assetClassFilters (ac : Option Str) : List PFilter :=
  match ac with
  | some a =>
    if a = [] then []
    else
      if lowerStr a = "equity".data then
        [⟨"CODBDI".data, "in".data, .ints [2, 96]⟩, ⟨"TPMERC".data, "in".data, .ints [10, 20]⟩]
      else if lowerStr a = "fii".data then [⟨"CODBDI".data, "==".data, .int 12⟩]
      else if lowerStr a = "options".data then
        [⟨"TPMERC".data, "in".data, .ints [70, 80, 12, 13]⟩]
      else []
  | none => []

/-- The four range criteria of the `filter_map`, in its order. -/
def dateFilters (p : Params) : List PFilter :=
  (match p.start_date with | some d => [⟨"DATA_PREGAO".data, ">=".data, .date d⟩] | none => [])
  ++ (match p.end_date with | some d => [⟨"DATA_PREGAO".data, "<=".data, .date d⟩] | none => [])
  ++ (match p.vencimento_min with | some d => [⟨"DATVEN".data, ">=".data, .date d⟩] | none => [])
  ++ (match p.vencimento_max with | some d => [⟨"DATVEN".data, "<=".data, .date d⟩] | none => [])

/-- The `tickers` set-membership criterion (values uppercased). -/
def tickerFilter (t : Option (List Str)) : List PFilter :=
  match t with
  | some ts => [⟨"CODNEG".data, "in".data, .strs (ts.map upperStr)⟩]
  | none => []

def codisiFilter (c : Option (List Str)) : List PFilter :=
  match c with
  | some l => [⟨"CODISI".data, "in".data, .strs l⟩]
  | none => []

/-- One translated code-list criterion (CODBDI or TPMERC). -/
def codeFilter (colname : Str) (m : List (Str × Int)) (items : Option (List CodeItem)) :
    Except QError (List PFilter) :=
  match items with
  | some its => do
    let codes ← its.mapM (translateCode m)
    pure [(⟨colname, "in".data, .ints codes⟩ : PFilter)]
  | none => pure []

/-- Model of `_build_parquet_filters`: the asset-class convenience expansion,
then the direct column criteria in the source's `filter_map` order, then
the translated CODBDI/TPMERC code lists.  `None`-valued arguments build
no predicate. -/
def buildParquetFilters (cmap tmap : List (Str × Int)) (p : Params) :
    Except QError (List PFilter) := do
  let bdiF ← codeFilter "CODBDI".data cmap p.codbdi.join
  let tmF ← codeFilter "TPMERC".data tmap p.tpmerc.join
  pure (assetClassFilters p.asset_class.join ++ dateFilters p ++ tickerFilter p.tickers.join
    ++ codisiFilter p.codisi.join ++ bdiF ++ tmF)

/-- The widened column projection: the identifying key columns always,
the caller's columns (or the default price/volume set), and `ESPECI`
whenever a post-filter criterion needs it.  (Python materialises a
`set`; this model fixes one enumeration order of it.) -/
def columnsToLoad (p : Params) : List Str :=
  let key := ["DATA_PREGAO".data, "CODNEG".data, "CODISI".data]
  let base :=
    match p.columns with
    | none => key ++ ["PREABE".data, "PREMAX".data, "PREMIN".data,
        "PREULT".data, "VOLTOT".data, "QUATOT".data]
    | some uc => uniqueFirst (key ++ uc)
  let needEspeci :=
    (match p.especificacao with | some l => !l.isEmpty | none => false)
    || (p.asset_class.join == some "bdr".data)
    || (match p.ticker_root.join with | some s => !s.isEmpty | none => false)
  if needEspeci && !(base.contains "ESPECI".data) then base ++ ["ESPECI".data] else base

/-- The `'|'.join(espec_value)` regex, matched case-insensitively: the
empty alternation matches everywhere; otherwise some alternative (a
literal here) must occur as a substring. -/
def especMatch (pats : List Str) (sp : Str) : Bool :=
  match pats with
  | [] => true
  | _ => pats.any (fun pt => isSubstr (upperStr pt) (upperStr sp))

/-- Model of `params.get('ticker_root') or ticker_root_for_options`: the explicit
root when truthy, else the root derived for an options-by-entity query. -/
def effRoot (p : Params) (rootForOptions : Option Str) : Option Str :=
  match p.ticker_root.join with
  | some s => if s = [] then rootForOptions else some s
  | none => rootForOptions

/-- The ticker-root prefix post-filter (`str.startswith`, `na=False`). -/
def rootFilter (tr : Option Str) (df : List QuoteRecord) : List QuoteRecord :=
  match tr with
  | some root => df.filter (fun r =>
      match r.CODNEG with
      | some t => beginsWith (upperStr root) t
      | none => false)
  | none => df

/-- The BDR post-filter: specification contains `DR`, case-insensitive. -/
def bdrFilter (p : Params) (df : List QuoteRecord) : List QuoteRecord :=
  if (match p.asset_class.join with
      | some s => !s.isEmpty && lowerStr s == "bdr".data
      | none => false)
  then df.filter (fun r =>
      match r.ESPECI with
      | some sp => isSubstr "DR".data (upperStr sp)
      | none => false)
  else df

/-- The free-text specification post-filter. -/
def especFilter (p : Params) (df : List QuoteRecord) : List QuoteRecord :=
  match p.especificacao with
  | some pats =>
    df.filter (fun r =>
      match r.ESPECI with
      | some sp => especMatch pats sp
      | none => false)
  | none => df

/-- The in-memory post-filter stage: ticker-root prefix (the explicit
`ticker_root` if truthy, else the root derived for options), the BDR
specification test, and the free-text specification alternation.  All
three treat a missing value as a non-match (`na=False`). -/
def postFilter (p : Params) (rootForOptions : Option Str) (df : List QuoteRecord) :
    List QuoteRecord :=
  especFilter p (bdrFilter p (rootFilter (effRoot p rootForOptions) df))

/-- Model of `sort_values(by=['CODNEG', 'DATA_PREGAO'])`: ascending on both keys,
missing values last. -/
def rowLeb (a b : QuoteRecord) : Bool :=
  if a.CODNEG == b.CODNEG then
    (match a.DATA_PREGAO, b.DATA_PREGAO with
     | some x, some y => x ≤ y
     | some _, none => true
     | none, some _ => false
     | none, none => true)
  else ascTickb a.CODNEG b.CODNEG

def RowLe (a b : QuoteRecord) : Prop := rowLeb a b = true

instance : DecidableRel RowLe := fun a b => instDecidableEqBool _ _

def sortRows (df : List QuoteRecord) : List QuoteRecord := List.insertionSort RowLe df

/-- Model of `get_quotes`: exploratory resolution, starter validation, pushdown
predicate construction, the guarded scan (`try`), post-filtering and
sorting.  A data-layer failure during the scan stage is caught and
surfaced as an empty result. -/
def get_quotes (master : List MasterEntry) (cmap tmap : List (Str × Int)) (scan : ScanFn)
    (p : Params) : Except QError QueryResult :=
  match resolveEntity master p with
  | .error q => .error q
  | .ok .earlyEmpty => .ok ⟨false, [], []⟩
  | .ok (.go p1 root) =>
    if starterPresent p1 then
      match buildParquetFilters cmap tmap p1 with
      | .error q => .error q
      | .ok filters =>
        match scan filters (columnsToLoad p1) with
        | .error _ => .ok ⟨true, filters, []⟩
        | .ok df =>
          let df1 := if df.isEmpty then df else postFilter p1 root df
          if df1.isEmpty then .ok ⟨true, filters, []⟩
          else .ok ⟨true, filters, sortRows df1⟩
    else .error .invalidQuery

def colOptInt (r : QuoteRecord) (col : Str) : Option Int :=
  if col == "CODBDI".data then r.CODBDI
  else if col == "TPMERC".data then r.TPMERC
  else none

def colOptDate (r : QuoteRecord) (col : Str) : Option Nat :=
  if col == "DATA_PREGAO".data then r.DATA_PREGAO
  else if col == "DATVEN".data then r.DATVEN
  else none

def colOptStr (r : QuoteRecord) (col : Str) : Option Str :=
  if col == "CODNEG".data then r.CODNEG
  else if col == "CODISI".data then r.CODISI
  else none

/-- Row-level semantics of one pushdown predicate (a missing value never
satisfies a predicate, as in Arrow's filter evaluation). -/
def satisfiesFilter (r : QuoteRecord) (f : PFilter) : Bool :=
  match f.val with
  | .date d =>
    match colOptDate r f.col with
    | some x =>
      if f.op == ">=".data then d ≤ x
      else if f.op == "<=".data then x ≤ d
      else false
    | none => false
  | .int n => colOptInt r f.col == some n
  | .ints l =>
    match colOptInt r f.col with
    | some x => l.contains x
    | none => false
  | .strs l =>
    match colOptStr r f.col with
    | some s => l.contains s
    | none => false

/-- The storage layer's pushdown contract: every row a scan returns
satisfies every predicate it was given. -/
def HonorsFilters (scan : ScanFn) : Prop :=
  ∀ fs cols rows, scan fs cols = .ok rows → ∀ r ∈ rows, ∀ f ∈ fs, satisfiesFilter r f = true

/-! ## Concrete sample data (used to evaluate the theorems) -/

def sampleMasterVale : MasterEntry where
  CODISI := some "BRVALEACNOR0".data
  ULTIMO_TICKER := some "VALE3".data
  ULTIMO_NOME := some "VALE".data
  ULTIMA_ESPECIFICACAO := some "ON".data
  TICKERS_HISTORICOS := "VALE3".data
  NOMES_HISTORICOS := "VALE".data

def sampleOptionRow : QuoteRecord :=
  { DATA_PREGAO := some 20230103, CODNEG := some "VALEA100".data, TPMERC := some 70 }

def optionsPushdown : PFilter := ⟨"TPMERC".data, "in".data, .ints [70, 80, 12, 13]⟩

/-- A storage layer that returns one options row for the options
pushdown predicate list and nothing otherwise. -/
def sampleScan : ScanFn := fun fs _ =>
  if fs = [optionsPushdown] then .ok [sampleOptionRow] else .ok []

def sampleOptionsParams : Params :=
  { entity := some (some "VALE".data), asset_class := some (some "options".data) }

def samplePetr3 : QuoteRecord :=
  { DATA_PREGAO := some 20230103, CODNEG := some "PETR3".data,
    NOMRES := some "PETROBRAS".data, ESPECI := some "ON".data,
    CODISI := some "BRPETRACNPR6".data }

def samplePetr4 : QuoteRecord :=
  { DATA_PREGAO := some 20230104, CODNEG := some "PETR4".data,
    NOMRES := some "PETROBRAS".data, ESPECI := some "PN".data,
    CODISI := some "BRPETRACNPR6".data }

def sampleStore : List QuoteRecord := [samplePetr3, samplePetr4]

/-- The Security Master entry `create_security_master` derives from
`sampleStore`. -/
def sampleMasterPetr : MasterEntry where
  CODISI := some "BRPETRACNPR6".data
  ULTIMO_TICKER := some "PETR4".data
  ULTIMO_NOME := some "PETROBRAS".data
  ULTIMA_ESPECIFICACAO := some "PN".data
  TICKERS_HISTORICOS := "PETR3 | PETR4".data
  NOMES_HISTORICOS := "PETROBRAS".data

/-! ## Theorems -/

/-- C2: a `get_quotes` call supplying none of the starter criteria
(`tickers`, `entity`, `codisi`, `codbdi`, `tpmerc`, `asset_class`,
`ticker_root`) fails with the invalid-query precondition error, for
every possible behaviour of the storage layer — in particular no scan of
the columnar store is attempted (the outcome is independent of `scan`). -/
theorem get_quotes_no_starter_invalid (master : List MasterEntry) (cmap tmap : List (Str × Int))
    (scan : ScanFn) (p : Params) (h : starterPresent p = false) :
    get_quotes master cmap tmap scan p = .error .invalidQuery := by
  have he : p.entity = none := by
    cases hp : p.entity with
    | none => rfl
    | some v =>
      unfold starterPresent at h
      rw [hp] at h
      simp at h
  have hre : resolveEntity master p = .ok (.go p none) := by
    simp [resolveEntity, he]
  unfold get_quotes
  rw [hre]
  simp [h]

/-- Witness for C2 at the empty parameter set. -/
theorem get_quotes_no_starter_invalid_witness :
    starterPresent {} = false
    ∧ get_quotes [] [] [] (fun _ _ => .ok []) {} = .error .invalidQuery :=
  ⟨rfl, get_quotes_no_starter_invalid [] [] [] (fun _ _ => .ok []) {} rfl⟩

/-- C10: a call whose starter keyword is present but `None`-valued (and
with no other criterion) passes validation — only key presence is tested
— and proceeds to a scan with an empty pushdown predicate list, since
`None`-valued arguments build no storage-level filter. -/
theorem get_quotes_present_none_scans (master : List MasterEntry) (cmap tmap : List (Str × Int))
    (scan : ScanFn) (p : Params)
    (hpres : starterPresent p = true)
    (ht : p.tickers.join = none) (he : p.entity.join = none)
    (hi : p.codisi.join = none) (hb : p.codbdi.join = none)
    (hm : p.tpmerc.join = none) (ha : p.asset_class.join = none)
    (hr : p.ticker_root.join = none)
    (hsd : p.start_date = none) (hed : p.end_date = none)
    (hvm : p.vencimento_min = none) (hvx : p.vencimento_max = none) :
    buildParquetFilters cmap tmap p = .ok []
    ∧ ∃ res, get_quotes master cmap tmap scan p = .ok res
        ∧ res.scanned = true ∧ res.filtersUsed = [] := by
  have hbf : buildParquetFilters cmap tmap p = .ok [] := by
    unfold buildParquetFilters codeFilter assetClassFilters dateFilters tickerFilter codisiFilter
    rw [ht, hi, hb, hm, ha, hsd, hed, hvm, hvx]
    rfl
  refine ⟨hbf, ?_⟩
  have hre : resolveEntity master p = .ok (.go p none) := by
    unfold resolveEntity
    rw [he]
  cases hscan : scan [] (columnsToLoad p) with
  | error e =>
    refine ⟨⟨true, [], []⟩, ?_, rfl, rfl⟩
    unfold get_quotes
    rw [hre]
    simp [hpres, hbf, hscan]
  | ok df =>
    by_cases hd : (if df = [] then df else postFilter p none df) = []
    · refine ⟨⟨true, [], []⟩, ?_, rfl, rfl⟩
      unfold get_quotes
      rw [hre]
      simp [hpres, hbf, hscan, hd]
    · refine ⟨⟨true, [], sortRows (if df = [] then df else postFilter p none df)⟩,
        ?_, rfl, rfl⟩
      unfold get_quotes
      rw [hre]
      simp [hpres, hbf, hscan, hd]

/-- Witness for C10 at `tickers=None`. -/
theorem get_quotes_present_none_scans_witness :
    starterPresent { tickers := some none } = true
    ∧ buildParquetFilters [] [] { tickers := some none } = .ok []
    ∧ ∃ res, get_quotes [] [] [] (fun _ _ => .ok []) { tickers := some none } = .ok res
        ∧ res.scanned = true ∧ res.filtersUsed = [] := by
  have h := get_quotes_present_none_scans [] [] [] (fun _ _ => .ok [])
    { tickers := some none } rfl rfl rfl rfl rfl rfl rfl rfl rfl rfl rfl rfl
  exact ⟨rfl, h.1, h.2⟩

/-- C3: when the storage layer fails at scan time, `get_quotes` returns
a normal empty result, never a partial one (every `ok` outcome under a
failing scan carries no rows); and every error `get_quotes` does raise
is independent of the storage layer (the same error is raised whatever
`scan` does), i.e. no data-layer exception propagates. -/
theorem get_quotes_scan_failure_empty (master : List MasterEntry) (cmap tmap : List (Str × Int))
    (p : Params) (failScan : ScanFn)
    (hfail : ∀ fs cols, failScan fs cols = .error ()) :
    (∀ r, get_quotes master cmap tmap failScan p = .ok r → r.rows = [])
    ∧ (∀ q, get_quotes master cmap tmap failScan p = .error q →
        ∀ scan : ScanFn, get_quotes master cmap tmap scan p = .error q) := by
  cases hre : resolveEntity master p with
  | error q0 =>
    have hg : ∀ scan : ScanFn, get_quotes master cmap tmap scan p = .error q0 := by
      intro scan
      unfold get_quotes
      rw [hre]
    refine ⟨fun r h => ?_, fun q h scan => ?_⟩
    · rw [hg failScan] at h
      simp at h
    · rw [hg failScan] at h
      injection h with h2
      rw [← h2]
      exact hg scan
  | ok st =>
    cases st with
    | earlyEmpty =>
      have hg : ∀ scan : ScanFn, get_quotes master cmap tmap scan p = .ok ⟨false, [], []⟩ := by
        intro scan
        unfold get_quotes
        rw [hre]
      refine ⟨fun r h => ?_, fun q h scan => ?_⟩
      · rw [hg failScan] at h
        injection h with h2
        rw [← h2]
      · rw [hg failScan] at h
        simp at h
    | go p1 root =>
      by_cases hs : starterPresent p1 = true
      · cases hbf : buildParquetFilters cmap tmap p1 with
        | error q1 =>
          have hg : ∀ scan : ScanFn, get_quotes master cmap tmap scan p = .error q1 := by
            intro scan
            unfold get_quotes
            rw [hre]
            simp [hs, hbf]
          refine ⟨fun r h => ?_, fun q h scan => ?_⟩
          · rw [hg failScan] at h
            simp at h
          · rw [hg failScan] at h
            injection h with h2
            rw [← h2]
            exact hg scan
        | ok filters =>
          have hg : get_quotes master cmap tmap failScan p = .ok ⟨true, filters, []⟩ := by
            unfold get_quotes
            rw [hre]
            simp [hs, hbf, hfail filters (columnsToLoad p1)]
          refine ⟨fun r h => ?_, fun q h scan => ?_⟩
          · rw [hg] at h
            injection h with h2
            rw [← h2]
          · rw [hg] at h
            simp at h
      · have hg : ∀ scan : ScanFn, get_quotes master cmap tmap scan p = .error .invalidQuery := by
          intro scan
          unfold get_quotes
          rw [hre]
          simp [hs]
        refine ⟨fun r h => ?_, fun q h scan => ?_⟩
        · rw [hg failScan] at h
          simp at h
        · rw [hg failScan] at h
          injection h with h2
          rw [← h2]
          exact hg scan

/-- Witness for C3: a failing scan yields the empty result. -/
theorem get_quotes_scan_failure_empty_witness :
    get_quotes [] [] [] (fun _ _ => .error ()) { tickers := some (some ["PETR4".data]) }
      = .ok ⟨true, [⟨"CODNEG".data, "in".data, .strs ["PETR4".data]⟩], []⟩
    ∧ (⟨true, [⟨"CODNEG".data, "in".data, .strs ["PETR4".data]⟩], []⟩ : QueryResult).rows
      = ([] : List QuoteRecord) := by
  have hok : get_quotes [] [] [] (fun _ _ => .error ())
      { tickers := some (some ["PETR4".data]) }
      = .ok ⟨true, [⟨"CODNEG".data, "in".data, .strs ["PETR4".data]⟩], []⟩ := by rfl
  exact ⟨hok,
    (get_quotes_scan_failure_empty [] [] [] { tickers := some (some ["PETR4".data]) }
      (fun _ _ => .error ()) (fun _ _ => rfl)).1 _ hok⟩

/-- Counterexample to C5 as stated: for a line whose `PREULT` field
holds the scaled integer 7, the program's float64 decode is the double
`5044031582654956 * 2 ^ (-56)` (the value printed `0.07`), and
re-encoding by the float64 multiplication by 100 yields
`7881299347898369 * 2 ^ (-50)` (printed `7.000000000000001`), which is
not the original scaled integer. -/
theorem price_roundtrip_float64_counterexample :
    (decodeLine (List.replicate 108 ' ' ++ "0000000000007".data)).PREULT
      = some (5044031582654956, -56)
    ∧ f64Mul100 (5044031582654956, -56) = (7881299347898369, -50)
    ∧ f64EqInt (7881299347898369, -50) 7 = false := by decide

/-- C5 (amended): a price/volume field parsing as the scaled integer `n`
decodes to the binary64 value of `n / 100`; re-encoding by multiplying
by 100 recovers `n` exactly under the specification's exact rational
scaling, while the program's float64 round trip recovers it only up to
float64 rounding — not always exactly (see the counterexample at
`n = 7`). -/
theorem price_decode_roundtrip_amended (line : Str) (s : Str) (n : Int)
    (hs : rawField line 109 121 = some s) (hn : pyNumParse s = some ⟨n, 0⟩) :
    (decodeLine line).PREULT = some (f64Div100 (decValF64 ⟨n, 0⟩))
    ∧ decodeScaledExact n * 100 = (n : ℚ) := by
  constructor
  · show parsePriceField line 109 121 = _
    rw [parsePriceField, hs]
    simp [hn]
  · unfold decodeScaledExact
    exact div_mul_cancel₀ (n : ℚ) (by norm_num)

/-- Witness for the amended C5 at the scaled integer 12345. -/
theorem price_decode_roundtrip_amended_witness :
    (decodeLine (List.replicate 108 ' ' ++ "0000000012345".data)).PREULT
      = some (f64Div100 (decValF64 ⟨12345, 0⟩))
    ∧ decodeScaledExact 12345 * 100 = ((12345 : Int) : ℚ) := by
  have h := price_decode_roundtrip_amended (List.replicate 108 ' ' ++ "0000000012345".data)
    "0000000012345".data 12345 (by decide) (by decide)
  exact ⟨h.1, h.2⟩

/-- Counterexample to C6 as stated: a line whose integer-coded `PRAZOT`
field holds the numeric but non-integral text `1.5` makes
`astype('Int64')` raise, so the whole batch's decode fails and nothing
of the file is written — the row is dropped, not kept with a missing
field. -/
theorem decoder_nonintegral_counterexample :
    pyNumParse "1.5".data = some ⟨15, -1⟩
    ∧ isIntegral ⟨15, -1⟩ = false
    ∧ decodeBatchChecked [List.replicate 49 ' ' ++ "1.5".data] = none
    ∧ processFile 5 ⟨none, []⟩
        ["H".data, List.replicate 49 ' ' ++ "1.5".data, "T".data] = ⟨none, []⟩ := by
  decide

/-- C6 (amended): a field that is not numeric at all decodes to the
missing value (never zero) — stated for a price, a date and an
integer-coded column — and a batch none of whose integer-coded fields
holds a numeric but non-integral value decodes in full: one record per
line, no row dropped, no exception.  (A numeric but non-integral
integer-coded field instead raises at batch level — see the
counterexample.) -/
theorem decoder_malformed_missing_amended (lines : List Str) (line : Str) :
    ((∀ s, rawField line 109 121 = some s → pyNumParse s = none) →
      (decodeLine line).PREULT = none)
    ∧ ((∀ s, rawField line 3 10 = some s → parseDate8 s = none) →
        (decodeLine line).DATA_PREGAO = none)
    ∧ ((∀ s, rawField line 11 12 = some s → pyNumParse s = none) →
        (decodeLine line).CODBDI = none)
    ∧ (lines.all lineIntFieldsOk = true →
        decodeBatchChecked lines = some (lines.map decodeLine)
        ∧ (lines.map decodeLine).length = lines.length
        ∧ (line ∈ lines → decodeLine line ∈ lines.map decodeLine)) := by
  refine ⟨?_, ?_, ?_, ?_⟩
  · intro h
    show parsePriceField line 109 121 = none
    rw [parsePriceField]
    cases hr : rawField line 109 121 with
    | none => rfl
    | some s => simp [h s hr]
  · intro h
    show parseDateField line 3 10 = none
    rw [parseDateField]
    cases hr : rawField line 3 10 with
    | none => rfl
    | some s => simp [h s hr]
  · intro h
    show parseIntField line 11 12 = none
    rw [parseIntField]
    cases hr : rawField line 11 12 with
    | none => rfl
    | some s => simp [h s hr]
  · intro h
    refine ⟨?_, List.length_map _ _, fun hm => List.mem_map_of_mem _ hm⟩
    unfold decodeBatchChecked
    rw [if_pos h]

/-- Witness for the amended C6 at an all-`X` line (nothing numeric). -/
theorem decoder_malformed_missing_amended_witness :
    (decodeLine (List.replicate 245 'X')).PREULT = none
    ∧ (decodeLine (List.replicate 245 'X')).DATA_PREGAO = none
    ∧ (decodeLine (List.replicate 245 'X')).CODBDI = none
    ∧ decodeBatchChecked [List.replicate 245 'X']
      = some [decodeLine (List.replicate 245 'X')]
    ∧ decodeLine (List.replicate 245 'X') ∈ [List.replicate 245 'X'].map decodeLine := by
  have h := decoder_malformed_missing_amended [List.replicate 245 'X']
    (List.replicate 245 'X')
  have h4 := h.2.2.2 (by decide)
  refine ⟨h.1 ?_, h.2.1 ?_, h.2.2.1 ?_, h4.1, h4.2.2 (by decide)⟩
  · intro s hs
    rw [show rawField (List.replicate 245 'X') 109 121 = some (List.replicate 13 'X') from
      by decide] at hs
    injection hs with h2
    rw [← h2]
    decide
  · intro s hs
    rw [show rawField (List.replicate 245 'X') 3 10 = some (List.replicate 8 'X') from
      by decide] at hs
    injection hs with h2
    rw [← h2]
    decide
  · intro s hs
    rw [show rawField (List.replicate 245 'X') 11 12 = some (List.replicate 2 'X') from
      by decide] at hs
    injection hs with h2
    rw [← h2]
    decide

theorem castBatch_fst (target : Schema) (batch : List QuoteRecord)
    (tb : Schema × List QuoteRecord) (h : castBatch target batch = some tb) : tb.1 = target := by
  unfold castBatch at h
  split at h
  · injection h with h2
    rw [← h2]
  · cases h

theorem writeBatch_inv (st st' : WriterState) (batch : List QuoteRecord)
    (hw : writeBatch st batch = some st') (hinv : WriterInv st) : WriterInv st' := by
  unfold writeBatch at hw
  split at hw
  · injection hw with h2
    rw [← h2]
    exact hinv
  · cases hsch : st.schema with
    | none =>
      rw [hsch] at hw
      simp only [Option.getD_none] at hw
      cases hc : castBatch (inferSchema batch) batch with
      | none => rw [hc] at hw; cases hw
      | some tb =>
        rw [hc] at hw
        injection hw with h2
        rw [← h2]
        constructor
        · intro s hs b hb
          simp only at hs
          injection hs with hs2
          rw [hinv.2 hsch] at hb
          simp at hb
          rw [hb, castBatch_fst _ _ _ hc, ← hs2]
        · intro hs
          simp at hs
    | some s0 =>
      rw [hsch] at hw
      simp only [Option.getD_some] at hw
      cases hc : castBatch s0 batch with
      | none => rw [hc] at hw; cases hw
      | some tb =>
        rw [hc] at hw
        injection hw with h2
        rw [← h2]
        constructor
        · intro s hs b hb
          simp only at hs
          injection hs with hs2
          simp at hb
          rcases hb with hb | hb
          · rw [hinv.1 s0 hsch b hb, ← hs2]
          · rw [hb, castBatch_fst _ _ _ hc, ← hs2]
        · intro hs
          simp at hs

theorem processFile_go_inv : ∀ (bs : List (List Str)) (st : WriterState),
    WriterInv st → WriterInv (processFile.go st bs)
  | [], _, h => h
  | b :: bs, st, h => by
    rw [processFile.go]
    cases hd : decodeBatchChecked b with
    | none => exact h
    | some batch =>
      show WriterInv (match writeBatch st batch with
        | some st' => processFile.go st' bs
        | none => st)
      cases hw : writeBatch st batch with
      | none => exact h
      | some st' => exact processFile_go_inv bs st' (writeBatch_inv st st' _ hw h)

theorem processFile_inv (batchSize : Nat) (st : WriterState) (lines : List Str)
    (h : WriterInv st) : WriterInv (processFile batchSize st lines) :=
  processFile_go_inv _ st h

theorem processBuild_inv (batchSize : Nat) (files : List (List Str)) :
    WriterInv (processBuild batchSize files) := by
  unfold processBuild
  have key : ∀ (fs : List (List Str)) (st : WriterState), WriterInv st →
      WriterInv (fs.foldl (processFile batchSize) st) := by
    intro fs
    induction fs with
    | nil => exact fun st h => h
    | cons f fs ih =>
      intro st h
      exact ih _ (processFile_inv batchSize st f h)
  have base : WriterInv ⟨none, []⟩ := by
    unfold WriterInv
    constructor
    · intro s hs
      cases hs
    · intro _
      rfl
  exact key files ⟨none, []⟩ base

/-- C7: within one build, the output schema is the one inferred for the
very first batch written, and every batch appended to the store file —
from whatever source file — carries exactly that schema (each is cast to
it before the append), so column order, names and types agree across all
batches. -/
theorem schema_fixed_across_batches (batchSize : Nat) (files : List (List Str))
    (b0 : Schema × List QuoteRecord) (bs : List (Schema × List QuoteRecord))
    (h : (processBuild batchSize files).written = b0 :: bs) :
    (processBuild batchSize files).schema = some b0.1
    ∧ ∀ b ∈ (processBuild batchSize files).written, b.1 = b0.1 := by
  have hinv := processBuild_inv batchSize files
  cases hsch : (processBuild batchSize files).schema with
  | none =>
    rw [hinv.2 hsch] at h
    cases h
  | some s =>
    have hb0 : b0.1 = s := hinv.1 s hsch b0 (by rw [h]; exact List.mem_cons_self _ _)
    constructor
    · rw [hb0]
    · intro b hb
      rw [hinv.1 s hsch b hb, hb0]

/-- Witness for C7: a one-file, one-batch build. -/
theorem schema_fixed_across_batches_witness :
    (processBuild 5 [["H".data, "01".data, "T".data]]).written
      = [(inferSchema [decodeLine "01".data], [decodeLine "01".data])]
    ∧ (processBuild 5 [["H".data, "01".data, "T".data]]).schema
      = some (inferSchema [decodeLine "01".data]) := by
  have hw : (processBuild 5 [["H".data, "01".data, "T".data]]).written
      = [(inferSchema [decodeLine "01".data], [decodeLine "01".data])] := by decide
  exact ⟨hw, (schema_fixed_across_batches 5 [["H".data, "01".data, "T".data]] _ _ hw).1⟩

theorem mem_sortRows (df : List QuoteRecord) (r : QuoteRecord) :
    r ∈ sortRows df ↔ r ∈ df :=
  (List.perm_insertionSort RowLe df).mem_iff

theorem rootFilter_mem (tr : Option Str) (df : List QuoteRecord) (r : QuoteRecord)
    (h : r ∈ rootFilter tr df) :
    r ∈ df ∧ ∀ root, tr = some root →
      ∃ t, r.CODNEG = some t ∧ beginsWith (upperStr root) t = true := by
  cases tr with
  | none => exact ⟨h, fun root hr => by cases hr⟩
  | some root0 =>
    rw [rootFilter] at h
    have h2 := List.mem_filter.mp h
    refine ⟨h2.1, fun root hr => ?_⟩
    injection hr with hr2
    rcases hc : r.CODNEG with _ | t
    · rw [hc] at h2
      simp at h2
    · rw [hc] at h2
      refine ⟨t, rfl, ?_⟩
      rw [← hr2]
      simpa using h2.2

theorem bdrFilter_sub (p : Params) (df : List QuoteRecord) (r : QuoteRecord)
    (h : r ∈ bdrFilter p df) : r ∈ df := by
  unfold bdrFilter at h
  split at h
  · exact (List.mem_filter.mp h).1
  · exact h

theorem especFilter_sub (p : Params) (df : List QuoteRecord) (r : QuoteRecord)
    (h : r ∈ especFilter p df) : r ∈ df := by
  unfold especFilter at h
  split at h
  · exact (List.mem_filter.mp h).1
  · exact h

theorem postFilter_mem (p : Params) (rootForOptions : Option Str) (df : List QuoteRecord)
    (r : QuoteRecord) (h : r ∈ postFilter p rootForOptions df) :
    r ∈ df ∧ ∀ root, effRoot p rootForOptions = some root →
      ∃ t, r.CODNEG = some t ∧ beginsWith (upperStr root) t = true := by
  unfold postFilter at h
  have h1 := bdrFilter_sub p _ r (especFilter_sub p _ r h)
  have h2 := rootFilter_mem _ df r h1
  exact h2

theorem options_filter_mem (cmap tmap : List (Str × Int)) (p : Params)
    (filters : List PFilter) (hac : p.asset_class.join = some "options".data)
    (h : buildParquetFilters cmap tmap p = .ok filters) :
    (⟨"TPMERC".data, "in".data, .ints [70, 80, 12, 13]⟩ : PFilter) ∈ filters := by
  unfold buildParquetFilters at h
  cases h1 : codeFilter "CODBDI".data cmap p.codbdi.join with
  | error q =>
    rw [h1] at h
    cases h
  | ok bdiF =>
    rw [h1] at h
    cases h2 : codeFilter "TPMERC".data tmap p.tpmerc.join with
    | error q =>
      rw [h2] at h
      cases h
    | ok tmF =>
      rw [h2] at h
      injection h with h3
      rw [← h3, hac]
      rw [show assetClassFilters (some "options".data)
        = [⟨"TPMERC".data, "in".data, .ints [70, 80, 12, 13]⟩] from rfl]
      simp

/-- C8: a `get_quotes` call with `asset_class='options'` and an entity
criterion.  If `find_assets` has no match for the entity, the call
returns the empty result at once without attempting a scan; if it has a
match whose latest ticker carries a 4-letter root, every returned row's
ticker starts with that root and its market-type code lies in the
options code set `{70, 80, 12, 13}` (given the storage layer honours
its pushdown predicates). -/
theorem get_quotes_options_entity (master : List MasterEntry) (cmap tmap : List (Str × Int))
    (scan : ScanFn) (p : Params) (ent : Str)
    (hscan : HonorsFilters scan)
    (hent : p.entity.join = some ent) (hne : ent ≠ [])
    (hac : p.asset_class.join = some "options".data)
    (hroot : p.ticker_root = none) :
    (find_assets master ent = [] →
      get_quotes master cmap tmap scan p = .ok ⟨false, [], []⟩)
    ∧ (∀ e rest t root res, find_assets master ent = e :: rest →
        e.ULTIMO_TICKER = some t → root4 t = some root →
        get_quotes master cmap tmap scan p = .ok res →
        ∀ r ∈ res.rows,
          (∃ s, r.CODNEG = some s ∧ beginsWith (upperStr root) s = true)
          ∧ (∃ v, r.TPMERC = some v ∧ (v = 70 ∨ v = 80 ∨ v = 12 ∨ v = 13))) := by
  have hac' : (p.asset_class.bind fun a => a) = some "options".data := hac
  constructor
  · intro hfa
    have hre : resolveEntity master p = .ok .earlyEmpty := by
      unfold resolveEntity
      rw [hent]
      simp [hne, hac', hfa]
    unfold get_quotes
    rw [hre]
  · intro e rest t root res hfa htick hroot4 hgq r hr
    have hre : resolveEntity master p
        = .ok (.go { p with entity := none } (some root)) := by
      unfold resolveEntity
      rw [hent]
      simp [hne, hac', hfa, htick, hroot4]
    have hacp : p.asset_class.isSome = true := by
      rcases hj : p.asset_class with _ | x
      · rw [hj] at hac
        cases hac
      · rfl
    have hsp : starterPresent { p with entity := none } = true := by
      simp [starterPresent, hacp]
    cases hbf : buildParquetFilters cmap tmap { p with entity := none } with
    | error q =>
      have hg : get_quotes master cmap tmap scan p = .error q := by
        unfold get_quotes
        rw [hre]
        simp [hsp, hbf]
      rw [hg] at hgq
      cases hgq
    | ok filters =>
      cases hsc : scan filters (columnsToLoad { p with entity := none }) with
      | error u =>
        have hg : get_quotes master cmap tmap scan p = .ok ⟨true, filters, []⟩ := by
          unfold get_quotes
          rw [hre]
          simp [hsp, hbf, hsc]
        rw [hg] at hgq
        injection hgq with h2
        rw [← h2] at hr
        simp at hr
      | ok df =>
        by_cases hde : df = []
        · have hg : get_quotes master cmap tmap scan p = .ok ⟨true, filters, []⟩ := by
            unfold get_quotes
            rw [hre]
            simp [hsp, hbf, hsc, hde]
          rw [hg] at hgq
          injection hgq with h2
          rw [← h2] at hr
          simp at hr
        · by_cases hd : postFilter { p with entity := none } (some root) df = []
          · have hg : get_quotes master cmap tmap scan p = .ok ⟨true, filters, []⟩ := by
              unfold get_quotes
              rw [hre]
              simp [hsp, hbf, hsc, hde, hd]
            rw [hg] at hgq
            injection hgq with h2
            rw [← h2] at hr
            simp at hr
          · have hg : get_quotes master cmap tmap scan p = .ok
                ⟨true, filters, sortRows (postFilter { p with entity := none } (some root) df)⟩ := by
              unfold get_quotes
              rw [hre]
              simp [hsp, hbf, hsc, hde, hd]
            rw [hg] at hgq
            injection hgq with h2
            rw [← h2] at hr
            simp only at hr
            rw [mem_sortRows] at hr
            have hpf := postFilter_mem { p with entity := none } (some root) df r hr
            have heff : effRoot { p with entity := none } (some root) = some root := by
              unfold effRoot
              have h5 : ({ p with entity := none } : Params).ticker_root = none := hroot
              rw [show ({ p with entity := none } : Params).ticker_root.join = none from
                by rw [h5]; rfl]
            have hpre := hpf.2 root heff
            constructor
            · exact hpre
            · have hmemdf : r ∈ df := hpf.1
              have hsat := hscan filters _ df hsc r hmemdf
                ⟨"TPMERC".data, "in".data, .ints [70, 80, 12, 13]⟩
                (options_filter_mem cmap tmap _ filters hac hbf)
              unfold satisfiesFilter at hsat
              simp only at hsat
              rcases hm : r.TPMERC with _ | v
              · rw [show colOptInt r "TPMERC".data = r.TPMERC from rfl, hm] at hsat
                cases hsat
              · rw [show colOptInt r "TPMERC".data = r.TPMERC from rfl, hm] at hsat
                refine ⟨v, rfl, ?_⟩
                have h6 : v ∈ ([70, 80, 12, 13] : List Int) := by
                  simpa using hsat
                simpa using h6

/-- Witness for C8: the `VALE` options scenario. -/
theorem get_quotes_options_entity_witness :
    get_quotes [sampleMasterVale] [] [] sampleScan sampleOptionsParams
      = .ok ⟨true, [optionsPushdown], [sampleOptionRow]⟩
    ∧ ((∃ s, sampleOptionRow.CODNEG = some s
          ∧ beginsWith (upperStr "VALE".data) s = true)
       ∧ (∃ v, sampleOptionRow.TPMERC = some v
          ∧ (v = 70 ∨ v = 80 ∨ v = 12 ∨ v = 13))) := by
  have hsc : HonorsFilters sampleScan := by
    intro fs cols rows hs r hr f hf
    unfold sampleScan at hs
    by_cases hfs : fs = [optionsPushdown]
    · rw [if_pos hfs] at hs
      injection hs with h2
      rw [← h2] at hr
      simp at hr
      rw [hfs] at hf
      simp at hf
      rw [hr, hf]
      decide
    · rw [if_neg hfs] at hs
      injection hs with h2
      rw [← h2] at hr
      simp at hr
  have hok : get_quotes [sampleMasterVale] [] [] sampleScan sampleOptionsParams
      = .ok ⟨true, [optionsPushdown], [sampleOptionRow]⟩ := by rfl
  have h := (get_quotes_options_entity [sampleMasterVale] [] [] sampleScan
      sampleOptionsParams "VALE".data hsc rfl (by decide) rfl rfl).2
      sampleMasterVale [] "VALE3".data "VALE".data
      ⟨true, [optionsPushdown], [sampleOptionRow]⟩ (by decide) rfl (by decide) hok
      sampleOptionRow (by decide)
  exact ⟨hok, h⟩

theorem mem_uniqueFirstAux {α : Type} [DecidableEq α] :
    ∀ (l seen : List α) (a : α), a ∈ uniqueFirstAux l seen ↔ (a ∈ l ∧ a ∉ seen)
  | [], seen, a => by simp [uniqueFirstAux]
  | x :: l, seen, a => by
    unfold uniqueFirstAux
    by_cases hx : x ∈ seen
    · rw [if_pos hx, mem_uniqueFirstAux l seen a]
      by_cases hax : a = x
      · subst hax
        simp [hx]
      · simp [hax]
    · rw [if_neg hx]
      by_cases hax : a = x
      · subst hax
        simp [hx]
      · simp [List.mem_cons, hax, mem_uniqueFirstAux l (x :: seen) a]

theorem nodup_uniqueFirstAux {α : Type} [DecidableEq α] :
    ∀ (l seen : List α), (uniqueFirstAux l seen).Nodup
  | [], _ => by simp [uniqueFirstAux]
  | x :: l, seen => by
    unfold uniqueFirstAux
    by_cases hx : x ∈ seen
    · rw [if_pos hx]
      exact nodup_uniqueFirstAux l seen
    · rw [if_neg hx]
      refine List.nodup_cons.mpr ⟨?_, nodup_uniqueFirstAux l (x :: seen)⟩
      intro hmem
      exact ((mem_uniqueFirstAux l (x :: seen) x).mp hmem).2 (List.mem_cons_self x seen)

theorem mem_uniqueFirst {α : Type} [DecidableEq α] (l : List α) (a : α) :
    a ∈ uniqueFirst l ↔ a ∈ l := by
  unfold uniqueFirst
  rw [mem_uniqueFirstAux]
  simp

theorem nodup_uniqueFirst {α : Type} [DecidableEq α] (l : List α) :
    (uniqueFirst l).Nodup := nodup_uniqueFirstAux l []

theorem dropDupCodisi_sub : ∀ (l : List QuoteRecord) (seen : List (Option Str))
    (r : QuoteRecord), r ∈ dropDupCodisi l seen → r ∈ l
  | [], _, r, hr => by cases hr
  | y :: l, seen, r, hr => by
    unfold dropDupCodisi at hr
    by_cases hy : y.CODISI ∈ seen
    · rw [if_pos hy] at hr
      exact .tail _ (dropDupCodisi_sub l seen r hr)
    · rw [if_neg hy] at hr
      rcases List.mem_cons.mp hr with h | h
      · exact h ▸ List.mem_cons_self _ _
      · exact .tail _ (dropDupCodisi_sub l _ r h)

theorem dropDupCodisi_notseen : ∀ (l : List QuoteRecord) (seen : List (Option Str))
    (r : QuoteRecord), r ∈ dropDupCodisi l seen → r.CODISI ∉ seen
  | [], _, r, hr => by cases hr
  | y :: l, seen, r, hr => by
    unfold dropDupCodisi at hr
    by_cases hy : y.CODISI ∈ seen
    · rw [if_pos hy] at hr
      exact dropDupCodisi_notseen l seen r hr
    · rw [if_neg hy] at hr
      rcases List.mem_cons.mp hr with h | h
      · rw [h]
        exact hy
      · intro hmem
        exact dropDupCodisi_notseen l _ r h (List.mem_cons_of_mem _ hmem)

theorem mem_keys_dropDupCodisi : ∀ (l : List QuoteRecord) (seen : List (Option Str))
    (c : Option Str),
    c ∈ (dropDupCodisi l seen).map (fun r => r.CODISI)
      ↔ (c ∈ l.map (fun r => r.CODISI) ∧ c ∉ seen)
  | [], seen, c => by simp [dropDupCodisi]
  | y :: l, seen, c => by
    unfold dropDupCodisi
    by_cases hy : y.CODISI ∈ seen
    · rw [if_pos hy, mem_keys_dropDupCodisi l seen c]
      by_cases hc : c = y.CODISI
      · subst hc
        simp [hy]
      · simp [hc, Ne.symm hc]
    · rw [if_neg hy]
      by_cases hc : c = y.CODISI
      · subst hc
        simp [hy]
      · simp only [List.map_cons, List.mem_cons, hc, Ne.symm hc, false_or]
        rw [mem_keys_dropDupCodisi l (y.CODISI :: seen) c]
        simp [hc]

theorem nodup_keys_dropDupCodisi : ∀ (l : List QuoteRecord) (seen : List (Option Str)),
    ((dropDupCodisi l seen).map (fun r => r.CODISI)).Nodup
  | [], _ => by simp [dropDupCodisi]
  | y :: l, seen => by
    unfold dropDupCodisi
    by_cases hy : y.CODISI ∈ seen
    · rw [if_pos hy]
      exact nodup_keys_dropDupCodisi l seen
    · rw [if_neg hy]
      rw [List.map_cons]
      refine List.nodup_cons.mpr ⟨?_, nodup_keys_dropDupCodisi l (y.CODISI :: seen)⟩
      intro hmem
      exact ((mem_keys_dropDupCodisi l (y.CODISI :: seen) y.CODISI).mp hmem).2
        (List.mem_cons_self _ _)

theorem descDateb_refl (d : Option Nat) : descDateb d d = true := by
  cases d <;> simp [descDateb]

theorem descDateb_to_dateLeb {x y : Option Nat} (h : descDateb x y = true) :
    dateLeb y x = true := by
  cases x <;> cases y <;> simp [descDateb, dateLeb] at * <;> omega

/-- In a list sorted by descending trade date, every row kept by the
keep-first deduplication has the maximal date among the rows sharing its
identifier. -/
theorem dropDupCodisi_max : ∀ (l : List QuoteRecord) (seen : List (Option Str)),
    List.Sorted DescDate l →
    ∀ r ∈ dropDupCodisi l seen, ∀ x ∈ l, x.CODISI = r.CODISI → DescDate r x
  | [], _, _, r, hr => by cases hr
  | y :: l, seen, hs, r, hr => by
    rw [List.sorted_cons] at hs
    intro x hx hcx
    unfold dropDupCodisi at hr
    by_cases hy : y.CODISI ∈ seen
    · rw [if_pos hy] at hr
      rcases List.mem_cons.mp hx with h | h
      · exfalso
        apply dropDupCodisi_notseen l seen r hr
        rw [← hcx, h]
        exact hy
      · exact dropDupCodisi_max l seen hs.2 r hr x h hcx
    · rw [if_neg hy] at hr
      rcases List.mem_cons.mp hr with hry | hr2
      · subst hry
        rcases List.mem_cons.mp hx with h | h
        · rw [h]
          exact descDateb_refl _
        · exact hs.1 x h
      · rcases List.mem_cons.mp hx with h | h
        · exfalso
          apply dropDupCodisi_notseen l (y.CODISI :: seen) r hr2
          rw [← hcx, h]
          exact List.mem_cons_self _ _
        · exact dropDupCodisi_max l (y.CODISI :: seen) hs.2 r hr2 x h hcx

theorem nodup_trailList (f : QuoteRecord → Option Str) (store : List QuoteRecord)
    (c : Option Str) : (trailList f store c).Nodup := by
  unfold trailList
  rw [(List.perm_insertionSort SLe _).nodup_iff]
  refine List.Nodup.filterMap ?_ (nodup_uniqueFirst _)
  intro a a' b hb hb'
  cases a with
  | none => cases hb
  | some v =>
    cases a' with
    | none => cases hb'
    | some v' =>
      simp only [Option.mem_def, id] at hb hb'
      exact hb.trans hb'.symm

theorem sorted_trailList (f : QuoteRecord → Option Str) (store : List QuoteRecord)
    (c : Option Str) : List.Sorted SLe (trailList f store c) :=
  List.sorted_insertionSort SLe _

theorem mem_trailList (f : QuoteRecord → Option Str) (store : List QuoteRecord)
    (ci : Str) (s : Str) :
    s ∈ trailList f store (some ci) ↔ ∃ r ∈ store, r.CODISI = some ci ∧ f r = some s := by
  unfold trailList
  rw [(List.perm_insertionSort SLe _).mem_iff, List.mem_filterMap]
  constructor
  · rintro ⟨a, ha, hid⟩
    have h1 := (mem_uniqueFirst _ a).mp ha
    rw [List.mem_map] at h1
    obtain ⟨r, hr, hfr⟩ := h1
    rw [List.mem_filter] at hr
    have hr2 := List.mem_filter.mp hr.1
    refine ⟨r, hr2.1, by simpa using hr.2, ?_⟩
    rw [hfr]
    simpa using hid
  · rintro ⟨r, hr, hci, hfr⟩
    refine ⟨some s, ?_, rfl⟩
    rw [mem_uniqueFirst, List.mem_map]
    refine ⟨r, ?_, hfr⟩
    rw [List.mem_filter]
    refine ⟨List.mem_filter.mpr ⟨hr, ?_⟩, by simpa using hci⟩
    rw [hci]
    rfl

/-- C1: `create_security_master` yields exactly one entry per distinct
non-missing instrument identifier — every entry carries a non-missing
identifier, identifiers are pairwise distinct, and an identifier has an
entry iff some store row carries it — and each entry's latest
ticker/name/specification are those of a store row of maximal trade date
for that identifier (missing dates sorting below all dates). -/
theorem security_master_one_entry_latest (store : List QuoteRecord) :
    (∀ e ∈ createSecurityMaster store, e.CODISI.isSome = true)
    ∧ ((createSecurityMaster store).map MasterEntry.CODISI).Nodup
    ∧ (∀ c : Str, (∃ r ∈ store, r.CODISI = some c)
        ↔ some c ∈ (createSecurityMaster store).map MasterEntry.CODISI)
    ∧ (∀ e ∈ createSecurityMaster store, ∃ r ∈ store, r.CODISI = e.CODISI
        ∧ (∀ x ∈ store, x.CODISI = e.CODISI → dateLeb x.DATA_PREGAO r.DATA_PREGAO = true)
        ∧ e.ULTIMO_TICKER = r.CODNEG ∧ e.ULTIMO_NOME = r.NOMRES
        ∧ e.ULTIMA_ESPECIFICACAO = r.ESPECI) := by
  have hpm : ∀ e, e ∈ createSecurityMaster store ↔
      ∃ r ∈ dropDupCodisi
        (List.insertionSort DescDate (store.filter (fun r => r.CODISI.isSome))) [],
        mkEntry store r = e := by
    intro e
    unfold createSecurityMaster
    rw [(List.perm_insertionSort TickLe _).mem_iff, List.mem_map]
  have hsorted : List.Sorted DescDate
      (List.insertionSort DescDate (store.filter (fun r => r.CODISI.isSome))) :=
    List.sorted_insertionSort DescDate _
  have hmemsort : ∀ r : QuoteRecord,
      r ∈ List.insertionSort DescDate (store.filter (fun r => r.CODISI.isSome))
        ↔ (r ∈ store ∧ r.CODISI.isSome = true) := by
    intro r
    rw [(List.perm_insertionSort DescDate _).mem_iff, List.mem_filter]
  have hkeys : ((createSecurityMaster store).map MasterEntry.CODISI).Nodup
      ∧ ∀ c, c ∈ (createSecurityMaster store).map MasterEntry.CODISI
        ↔ c ∈ (dropDupCodisi
            (List.insertionSort DescDate (store.filter (fun r => r.CODISI.isSome))) []).map
            (fun r => r.CODISI) := by
    unfold createSecurityMaster
    have hperm : List.Perm
        ((List.insertionSort TickLe
          ((dropDupCodisi
            (List.insertionSort DescDate (store.filter (fun r => r.CODISI.isSome))) []).map
            (mkEntry store))).map MasterEntry.CODISI)
        (((dropDupCodisi
          (List.insertionSort DescDate (store.filter (fun r => r.CODISI.isSome))) []).map
          (mkEntry store)).map MasterEntry.CODISI) :=
      (List.perm_insertionSort TickLe _).map _
    have heq : ((dropDupCodisi
        (List.insertionSort DescDate (store.filter (fun r => r.CODISI.isSome))) []).map
        (mkEntry store)).map MasterEntry.CODISI
        = (dropDupCodisi
          (List.insertionSort DescDate (store.filter (fun r => r.CODISI.isSome))) []).map
          (fun r => r.CODISI) := by
      rw [List.map_map]
      rfl
    constructor
    · rw [hperm.nodup_iff, heq]
      exact nodup_keys_dropDupCodisi _ _
    · intro c
      rw [hperm.mem_iff, heq]
  refine ⟨?_, hkeys.1, ?_, ?_⟩
  · intro e he
    obtain ⟨r, hr, hre⟩ := (hpm e).mp he
    have hrs := (hmemsort r).mp (dropDupCodisi_sub _ _ r hr)
    rw [← hre]
    exact hrs.2
  · intro c
    rw [hkeys.2, mem_keys_dropDupCodisi]
    simp only [List.mem_nil_iff, not_false_iff, and_true]
    rw [List.mem_map]
    constructor
    · rintro ⟨r, hr, hc⟩
      exact ⟨r, (hmemsort r).mpr ⟨hr, by rw [hc]; rfl⟩, hc⟩
    · rintro ⟨r, hr, hc⟩
      exact ⟨r, (hmemsort r).mp hr |>.1, hc⟩
  · intro e he
    obtain ⟨r, hr, hre⟩ := (hpm e).mp he
    have hrs := (hmemsort r).mp (dropDupCodisi_sub _ _ r hr)
    refine ⟨r, hrs.1, by rw [← hre]; rfl, ?_, by rw [← hre]; rfl, by rw [← hre]; rfl,
      by rw [← hre]; rfl⟩
    intro x hx hcx
    have hx2 : x ∈ List.insertionSort DescDate (store.filter (fun r => r.CODISI.isSome)) := by
      rw [hmemsort]
      refine ⟨hx, ?_⟩
      rw [hcx, ← hre]
      exact (hmemsort r).mp (dropDupCodisi_sub _ _ r hr) |>.2
    have hdd := dropDupCodisi_max _ [] hsorted r hr x hx2 (by rw [hcx, ← hre]; rfl)
    exact descDateb_to_dateLeb hdd

/-- Witness for C1 at the two-row `PETR3`/`PETR4` scenario store. -/
theorem security_master_one_entry_latest_witness :
    ((createSecurityMaster sampleStore).map MasterEntry.CODISI).Nodup
    ∧ ((∃ r ∈ sampleStore, r.CODISI = some "BRPETRACNPR6".data)
        ↔ some "BRPETRACNPR6".data
          ∈ (createSecurityMaster sampleStore).map MasterEntry.CODISI)
    ∧ (createSecurityMaster sampleStore).map MasterEntry.ULTIMO_TICKER
      = [some "PETR4".data] :=
  ⟨(security_master_one_entry_latest sampleStore).2.1,
   (security_master_one_entry_latest sampleStore).2.2.1 "BRPETRACNPR6".data,
   by decide⟩

/-- C4: every entry's historical-ticker and historical-name trails are
the `" | "`-join of the distinct values ever observed for its identifier,
sorted lexicographically ascending, with no duplicate, no missing value
(a trail token always comes from a present value), and no empty token
whenever the store's present values are non-empty strings. -/
theorem security_master_trails (store : List QuoteRecord) :
    ∀ e ∈ createSecurityMaster store, ∀ ci : Str, e.CODISI = some ci →
      (e.TICKERS_HISTORICOS = joinPipe (trailList (fun r => r.CODNEG) store (some ci))
        ∧ e.NOMES_HISTORICOS = joinPipe (trailList (fun r => r.NOMRES) store (some ci)))
      ∧ ((trailList (fun r => r.CODNEG) store (some ci)).Nodup
        ∧ List.Sorted SLe (trailList (fun r => r.CODNEG) store (some ci))
        ∧ ∀ s, (s ∈ trailList (fun r => r.CODNEG) store (some ci)
            ↔ ∃ r ∈ store, r.CODISI = some ci ∧ r.CODNEG = some s))
      ∧ ((trailList (fun r => r.NOMRES) store (some ci)).Nodup
        ∧ List.Sorted SLe (trailList (fun r => r.NOMRES) store (some ci))
        ∧ ∀ s, (s ∈ trailList (fun r => r.NOMRES) store (some ci)
            ↔ ∃ r ∈ store, r.CODISI = some ci ∧ r.NOMRES = some s))
      ∧ ((∀ r ∈ store, r.CODNEG ≠ some []) →
          [] ∉ trailList (fun r => r.CODNEG) store (some ci))
      ∧ ((∀ r ∈ store, r.NOMRES ≠ some []) →
          [] ∉ trailList (fun r => r.NOMRES) store (some ci)) := by
  intro e he ci hci
  refine ⟨?_,
    ⟨nodup_trailList _ _ _, sorted_trailList _ _ _, fun s => mem_trailList _ _ _ _⟩,
    ⟨nodup_trailList _ _ _, sorted_trailList _ _ _, fun s => mem_trailList _ _ _ _⟩,
    ?_, ?_⟩
  · unfold createSecurityMaster at he
    rw [(List.perm_insertionSort TickLe _).mem_iff, List.mem_map] at he
    obtain ⟨r, hr, hre⟩ := he
    have hci' : r.CODISI = some ci := by
      have h2 : (mkEntry store r).CODISI = some ci := by rw [hre]; exact hci
      exact h2
    constructor
    · rw [← hre]
      show joinPipe (trailList (fun x => x.CODNEG) store r.CODISI) = _
      rw [hci']
    · rw [← hre]
      show joinPipe (trailList (fun x => x.NOMRES) store r.CODISI) = _
      rw [hci']
  · intro hne hmem
    obtain ⟨r, hr, _, hcn⟩ := (mem_trailList _ _ _ _).mp hmem
    exact hne r hr hcn
  · intro hne hmem
    obtain ⟨r, hr, _, hcn⟩ := (mem_trailList _ _ _ _).mp hmem
    exact hne r hr hcn

/-- Witness for C4 at the scenario store: the trail of the derived entry
is `PETR3 | PETR4` and holds no empty token. -/
theorem security_master_trails_witness :
    sampleMasterPetr.TICKERS_HISTORICOS
      = joinPipe (trailList (fun r => r.CODNEG) sampleStore (some "BRPETRACNPR6".data))
    ∧ [] ∉ trailList (fun r => r.CODNEG) sampleStore (some "BRPETRACNPR6".data) := by
  have h := security_master_trails sampleStore sampleMasterPetr (by decide)
    "BRPETRACNPR6".data rfl
  exact ⟨h.1.1, h.2.2.2.1 (by decide)⟩

end B3
